import Mathlib

/-!
Verification of the openbench evaluation core: a shallow embedding of

* `app/services/validation.py` — response evaluation and the recursive
  structural comparison (`_compare_structures`, `_compare_dicts`,
  `_compare_lists`, `_evaluate_exact_match`, `_evaluate_structured_match`,
  `evaluate_response`),
* `app/services/evaluation.py` — the per-task outcome dispatch
  (`_evaluate_single_model`), progress recomputation
  (`_update_execution_progress`) and batch finalization
  (`_finalize_execution`),
* `model-execution-service/app/services/model_manager.py` — the model
  residency cache (`load_model`, `unload_model`, `_ensure_model_capacity`,
  `start_inference`, `end_inference`).

Python JSON-like values are embedded as `Json` below.  Python floats are
modelled as rationals (so float scores and tolerances are exact; NaN and
rounding behaviour are outside the model).  Python dicts are association
lists in insertion order; a genuine Python dict always has distinct keys,
captured by `Json.wfKeys`.  Scores are rationals.  The `details` payload
that the Python code returns alongside each score is descriptive only and
is not modelled.
-/

/-- JSON-like structured values as produced by `_parse_response`:
the payloads that `_compare_structures` dispatches on. -/
inductive Json : Type where
  | null : Json
  | bool (b : Bool) : Json
  | int (n : Int) : Json
  | float (x : ℚ) : Json
  | str (s : String) : Json
  | arr (items : List Json) : Json
  | obj (fields : List (String × Json)) : Json

/-- Discriminator for the Python runtime type of a value: `type(actual) != type(expected)`
is `tag` inequality (note `type(1) != type(1.0)` and `type(True) != type(1)` in Python,
matching the distinct constructors here). -/
def Json.tag : Json → Nat
  | .null => 0
  | .bool _ => 1
  | .int _ => 2
  | .float _ => 3
  | .str _ => 4
  | .arr _ => 5
  | .obj _ => 6

/-- Whether a value is a Python dict (`isinstance(x, dict)`). -/
def Json.isObj : Json → Bool
  | .obj _ => true
  | _ => false

/-- Dictionary lookup: `key in d` / `d[key]` on the association list. -/
def lookupField (fields : List (String × Json)) (k : String) : Option Json :=
  match fields with
  | [] => none
  | (k2, v) :: rest => if k2 = k then some v else lookupField rest k

/-- Python `set(actual.keys()) == set(expected.keys())`. -/
def keySetEq (af ef : List (String × Json)) : Bool :=
  (af.map Prod.fst).all (fun k => (ef.map Prod.fst).contains k) &&
  (ef.map Prod.fst).all (fun k => (af.map Prod.fst).contains k)

/-- No key occurs twice (true of every real Python dict). -/
def nodupKeys : List String → Bool
  | [] => true
  | k :: rest => !rest.contains k && nodupKeys rest

mutual

/-- A value is well formed when every embedded object has distinct keys;
every value reachable from Python json/dict data satisfies this. -/
def Json.wfKeys : Json → Bool
  | .arr l => wfList l
  | .obj fs => nodupKeys (fs.map Prod.fst) && wfFields fs
  | _ => true
termination_by j => (sizeOf j, 0)

def wfList : List Json → Bool
  | [] => true
  | x :: xs => x.wfKeys && wfList xs
termination_by l => (sizeOf l, 1)

def wfFields : List (String × Json) → Bool
  | [] => true
  | (_, v) :: rest => v.wfKeys && wfFields rest
termination_by l => (sizeOf l, 1)

end

/-- Python `enumerate` starting at `i`. -/
def enumFrom2 : Nat → List Json → List (Nat × Json)
  | _, [] => []
  | i, x :: xs => (i, x) :: enumFrom2 (i+1) xs

/-- The three scoring knobs read from `evaluation_config` in
`_evaluate_structured_match` (defaults: `ignore_array_order=True`,
`float_tolerance=1e-6`, `ignore_extra_fields=True`). -/
structure Cfg where
  ignore_order : Bool
  float_tolerance : ℚ
  ignore_extra_fields : Bool

mutual

/-- `ValidationService._compare_structures`: type mismatch scores 0, dicts and
lists recurse, floats compare within tolerance, other scalars by equality. -/
def compare_structures (cfg : Cfg) (actual expected : Json) : ℚ :=
  if actual.tag ≠ expected.tag then 0
  else match actual, expected with
    | .obj af, .obj ef => compare_dicts cfg af ef
    | .arr as, .arr es => compare_lists cfg as es
    | .float x, .float y => if |x - y| ≤ cfg.float_tolerance then 1 else 0
    | .null, .null => 1
    | .bool b1, .bool b2 => if b1 = b2 then 1 else 0
    | .int n1, .int n2 => if n1 = n2 then 1 else 0
    | .str s1, .str s2 => if s1 = s2 then 1 else 0
    | _, _ => 0
termination_by (sizeOf expected, 0, 0)

/-- `ValidationService._compare_dicts`: key-set check (when extra fields are
not ignored), empty dict scores 1, else the per-key sum divided by
`len(expected)`. -/
def compare_dicts (cfg : Cfg) (af ef : List (String × Json)) : ℚ :=
  if !cfg.ignore_extra_fields && !keySetEq af ef then 0
  else if ef.length = 0 then 1
  else fieldsSum cfg af ef / (ef.length : ℚ)
termination_by (sizeOf ef, 1, 0)

/-- The per-key accumulation loop of `_compare_dicts`: a key missing from
`actual` contributes 0, otherwise the recursive score of the two values. -/
def fieldsSum (cfg : Cfg) (af : List (String × Json)) (l : List (String × Json)) : ℚ :=
  match l with
  | [] => 0
  | (k, ev) :: rest =>
      (match lookupField af k with
       | none => 0
       | some av => compare_structures cfg av ev) + fieldsSum cfg af rest
termination_by (sizeOf l, 0, 0)

/-- `ValidationService._compare_lists`: length mismatch scores 0, empty list
scores 1, then greedy best-match (order ignored) or positional comparison. -/
def compare_lists (cfg : Cfg) (as es : List Json) : ℚ :=
  if as.length ≠ es.length then 0
  else if es.length = 0 then 1
  else if cfg.ignore_order then
    greedyTotal cfg as [] es / (es.length : ℚ)
  else
    zipSum cfg as es / (es.length : ℚ)
termination_by (sizeOf es, 1, 0)

/-- The inner loop of the greedy branch of `_compare_lists`: scan
`enumerate(actual)`, skip used indices, keep the first index whose score
strictly beats the best so far (initially `-1`/`0.0`, here `none`/`0`). -/
def bestMatch (cfg : Cfg) (used : List Nat) (e : Json) (l : List (Nat × Json))
    (b : Option Nat × ℚ) : Option Nat × ℚ :=
  match l with
  | [] => b
  | (i, a) :: rest =>
      if i ∈ used then bestMatch cfg used e rest b
      else
        let s := compare_structures cfg a e
        bestMatch cfg used e rest (if s > b.2 then (some i, s) else b)
termination_by (sizeOf e, 1, sizeOf l)

/-- The outer loop of the greedy branch: for each expected element in order,
find the best unused actual element, consume it when one was found, and
accumulate its score. -/
def greedyTotal (cfg : Cfg) (as : List Json) (used : List Nat) (l : List Json) : ℚ :=
  match l with
  | [] => 0
  | e :: es =>
      let b := bestMatch cfg used e (enumFrom2 0 as) ((none : Option Nat), (0 : ℚ))
      b.2 + greedyTotal cfg as (match b.1 with | some i => i :: used | none => used) es
termination_by (sizeOf l, 0, 0)

/-- The ordered branch of `_compare_lists`: positional sum over
`zip(actual, expected)`. -/
def zipSum (cfg : Cfg) (as es : List Json) : ℚ :=
  match as, es with
  | a :: as2, e :: es2 => compare_structures cfg a e + zipSum cfg as2 es2
  | _, _ => 0
termination_by (sizeOf es, 0, 0)

end

/-- Numeric view used for Python `==` across `bool`/`int`/`float`
(in Python `True == 1 == 1.0`). -/
def toNum : Json → Option ℚ
  | .bool b => some (if b then 1 else 0)
  | .int n => some (n : ℚ)
  | .float x => some x
  | _ => none

mutual

/-- Python `==` on embedded values, as used by `_evaluate_exact_match` when the
parsed output is a dict.  Dict equality is key-based (one-sided lookup plus a
length check, which coincides with Python dict equality since real dicts have
distinct keys); numbers compare across `bool`/`int`/`float`. -/
def pyEq (a b : Json) : Bool :=
  match a, b with
  | .null, .null => true
  | .str s1, .str s2 => s1 == s2
  | .arr l1, .arr l2 => pyEqList l1 l2
  | .obj f1, .obj f2 => f1.length == f2.length && pyEqFieldsLe f1 f2
  | a, b =>
      match toNum a, toNum b with
      | some x, some y => x == y
      | _, _ => false
termination_by (sizeOf a, 1, 0)

def pyEqList (l1 l2 : List Json) : Bool :=
  match l1, l2 with
  | [], [] => true
  | a :: as2, b :: bs => pyEq a b && pyEqList as2 bs
  | _, _ => false
termination_by (sizeOf l1, 0, 0)

def pyEqFieldsLe (f1 f2 : List (String × Json)) : Bool :=
  match f1 with
  | [] => true
  | (k, v) :: rest =>
      (match lookupField f2 k with
       | none => false
       | some w => pyEq v w) && pyEqFieldsLe rest f2
termination_by (sizeOf f1, 0, 0)

end

/-- A single-quote character, for Python `repr` of strings. -/
def pyQuote : String := String.singleton (Char.ofNat 39)

/-- Decimal rendering of a model float (Python `repr` of a float; exact for
the rationals in the model, e.g. `1.0` for a whole number). -/
def floatRepr (x : ℚ) : String :=
  if x.den = 1 then toString x.num ++ ".0"
  else toString x.num ++ "/" ++ toString x.den

mutual

/-- Python `str()` on an embedded value, as used by `_evaluate_exact_match`
(`str(parsed_output)` / `str(expected...)`): strings render bare, `None`,
`True`/`False`, decimal integers, and containers render via `repr` of their
elements. -/
def pyStr : Json → String
  | .null => "None"
  | .bool b => if b then "True" else "False"
  | .int n => toString n
  | .float x => floatRepr x
  | .str s => s
  | .arr l => "[" ++ pyReprList l ++ "]"
  | .obj fs => "\x7b" ++ pyReprFields fs ++ "\x7d"
termination_by j => (sizeOf j, 0)

/-- Python `repr()`: like `str()` except strings are quoted. -/
def pyRepr : Json → String
  | .str s => pyQuote ++ s ++ pyQuote
  | j => pyStr j
termination_by j => (sizeOf j, 1)

def pyReprList : List Json → String
  | [] => ""
  | [x] => pyRepr x
  | x :: xs => pyRepr x ++ ", " ++ pyReprList xs
termination_by l => (sizeOf l, 2)

def pyReprFields : List (String × Json) → String
  | [] => ""
  | [(k, v)] => pyQuote ++ k ++ pyQuote ++ ": " ++ pyRepr v
  | (k, v) :: rest => pyQuote ++ k ++ pyQuote ++ ": " ++ pyRepr v ++ ", " ++ pyReprFields rest
termination_by l => (sizeOf l, 2)

end

/-- The result dictionary built by `ValidationService.evaluate_response`
(`is_correct`, `accuracy_score`, optional `error`, `parsed_output`); the
descriptive `details` entry is not modelled. -/
structure EvalResult where
  is_correct : Bool
  accuracy_score : ℚ
  error : Option String
  parsed_output : Option Json

/-- `ValidationService._evaluate_exact_match`.  A dict parsed output is
compared with Python `==`; otherwise both sides are stringified, stripped and
lower-cased, the expected side being `expected_output.get("value",
expected_output)` — which raises `AttributeError` (modelled as `Except.error`)
when `expected_output` is not a dict. -/
def evaluate_exact_match (parsed_output expected_output : Json) : Except String EvalResult :=
  match parsed_output with
  | .obj pf =>
      let c := pyEq (.obj pf) expected_output
      .ok { is_correct := c, accuracy_score := if c then 1 else 0,
            error := none, parsed_output := none }
  | _ =>
      match expected_output with
      | .obj ef =>
          let expected_val := match lookupField ef "value" with
            | some v => v
            | none => .obj ef
          let parsed_str := (pyStr parsed_output).trim.toLower
          let expected_str := (pyStr expected_val).trim.toLower
          let c := parsed_str == expected_str
          .ok { is_correct := c, accuracy_score := if c then 1 else 0,
                error := none, parsed_output := none }
      | _ => .error "AttributeError: object has no attribute get"

/-- `ValidationService._evaluate_structured_match`: when either side is not a
dict it falls back to exact match, otherwise it runs the recursive comparison
and applies the fixed `0.95` correctness threshold. -/
def evaluate_structured_match (parsed_output expected_output : Json) (cfg : Cfg) :
    Except String EvalResult :=
  match parsed_output, expected_output with
  | .obj pf, .obj ef =>
      let score := compare_structures cfg (.obj pf) (.obj ef)
      .ok { is_correct := decide (score ≥ 95/100), accuracy_score := score,
            error := none, parsed_output := none }
  | _, _ => evaluate_exact_match parsed_output expected_output

/-- `ValidationService.evaluate_response`.  The parsing strategies of
`_parse_response` are abstracted as the total function `parse` (strategies
1–3 catch their own failures and strategy 4 always returns the trimmed raw
string, so parsing never raises).  Dispatch on `evaluation_type`; `llm_judge`
falls through to structured match on the raw response string; an unknown type
raises `ValidationException`.  Any exception is caught and degraded to a
zero-score result with the message recorded. -/
def evaluate_response (parse : String → Json) (response : String)
    (expected_output : Json) (evaluation_type : String) (cfg : Cfg) : EvalResult :=
  let parsed_output := parse response
  let core : Except String EvalResult :=
    if evaluation_type = "exact_match" then
      evaluate_exact_match parsed_output expected_output
    else if evaluation_type = "structured_match" then
      evaluate_structured_match parsed_output expected_output cfg
    else if evaluation_type = "llm_judge" then
      evaluate_structured_match (.str response) expected_output cfg
    else .error ("Unknown evaluation type: " ++ evaluation_type)
  match core with
  | .ok r => { r with parsed_output := some parsed_output }
  | .error e =>
      { is_correct := false, accuracy_score := 0, error := some e, parsed_output := none }

/-- Outcome of the guarded provider call in `_evaluate_single_model`:
success with the response content, `asyncio.TimeoutError` from the per-task
deadline, `ProviderException`, or any other exception. -/
inductive ProviderOutcome where
  | success (content : String)
  | timeout
  | providerError (msg : String)
  | otherError (msg : String)

/-- The `TestResult` fields written by `_evaluate_single_model` (identifiers,
raw output, token/cost/latency bookkeeping are not modelled). -/
structure TaskRecord where
  status : String
  error_type : Option String
  error_message : Option String
  is_correct : Option Bool
  accuracy_score : Option ℚ
deriving DecidableEq

/-- `EvaluationService._evaluate_single_model`: the terminal record written for
one model, determined by the outcome of the provider call.  On success the
response is scored with `evaluate_response` and the task completes; the three
failure shapes map to the statuses and error types of the three `except`
arms. -/
def evaluate_single_model (parse : String → Json) (expected_output : Json)
    (evaluation_type : String) (cfg : Cfg) (outcome : ProviderOutcome) : TaskRecord :=
  match outcome with
  | .success content =>
      let r := evaluate_response parse content expected_output evaluation_type cfg
      { status := "completed", error_type := none, error_message := none,
        is_correct := some r.is_correct, accuracy_score := some r.accuracy_score }
  | .timeout =>
      { status := "timeout", error_type := some "timeout",
        error_message := some "Evaluation timed out", is_correct := none,
        accuracy_score := none }
  | .providerError msg =>
      { status := "failed", error_type := some "provider_error",
        error_message := some msg, is_correct := none, accuracy_score := none }
  | .otherError msg =>
      { status := "failed", error_type := some "unknown_error",
        error_message := some msg, is_correct := none, accuracy_score := none }

/-- The `Execution` fields touched by `_update_execution_progress` and
`_finalize_execution` (timestamps and the average accuracy/latency
aggregates are not modelled). -/
structure ExecutionRec where
  status : String
  error_message : Option String
  progress : Nat
  total_evaluations : Nat
  successful_evaluations : Nat
  failed_evaluations : Nat
deriving DecidableEq

/-- `EvaluationService._update_execution_progress`: recount the execution
counters from the stored task records — `progress` counts terminal tasks,
`successful_evaluations` the completed ones, `failed_evaluations` the failed
and timed-out ones. -/
def update_execution_progress (results : List TaskRecord) (ex : ExecutionRec) : ExecutionRec :=
  { ex with
    progress :=
      (results.filter (fun r =>
        r.status == "completed" || r.status == "failed" || r.status == "timeout")).length,
    successful_evaluations := (results.filter (fun r => r.status == "completed")).length,
    failed_evaluations :=
      (results.filter (fun r => r.status == "failed" || r.status == "timeout")).length }

/-- The final-status logic of `EvaluationService._finalize_execution`: when
`progress >= total_evaluations` the execution is marked completed; otherwise
it is failed with "All evaluations failed" when no evaluation succeeded, and
completed (partial success) when at least one did. -/
def finalize_execution (ex : ExecutionRec) : ExecutionRec :=
  if ex.progress ≥ ex.total_evaluations then { ex with status := "completed" }
  else if ex.successful_evaluations = 0 then
    { ex with status := "failed", error_message := some "All evaluations failed" }
  else { ex with status := "completed" }

/-- State of `ModelManager`: `loaded` is the `OrderedDict` of resident models
in recency order (front = least recently used), `active` the
`_concurrent_requests` defaultdict (missing model means 0). -/
structure MMState where
  loaded : List String
  active : List (String × Nat)
deriving DecidableEq

/-- Read `_concurrent_requests[m]` (defaultdict: 0 when absent). -/
def getActive (s : MMState) (m : String) : Nat :=
  match s.active.lookup m with
  | some n => n
  | none => 0

/-- Write `_concurrent_requests[m] = n`. -/
def setActive (s : MMState) (m : String) (n : Nat) : MMState :=
  { s with active := (m, n) :: s.active.eraseP (fun p => p.1 == m) }

/-- `OrderedDict.move_to_end`: move a resident model to the most recently
used position. -/
def moveToEnd (s : MMState) (m : String) : MMState :=
  { s with loaded := s.loaded.erase m ++ [m] }

/-- `ModelManager.unload_model`: fails when the model is not resident or has
active requests; otherwise removes it from the resident set. -/
def unload_model (s : MMState) (m : String) : MMState × Bool :=
  if m ∉ s.loaded then (s, false)
  else if 0 < getActive s m then (s, false)
  else ({ s with loaded := s.loaded.erase m }, true)

/-- One iteration of the eviction loop of `_ensure_model_capacity`: find the
least recently used model with no active requests and unload it; stop when
none exists or the resident set is empty. -/
def evictLoop (s : MMState) : Nat → MMState
  | 0 => s
  | Nat.succ n =>
      if s.loaded.isEmpty then s
      else
        match s.loaded.find? (fun m => getActive s m == 0) with
        | some m => evictLoop (unload_model s m).1 n
        | none => s

/-- `ModelManager._ensure_model_capacity` with capacity `C`
(`settings.max_loaded_models`, default 2): when the resident count has
reached `C`, try to unload `count - C + 1` idle LRU models; models with
active requests are never unloaded, and when every resident model is busy
the loop just stops (no failure is raised). -/
def ensure_model_capacity (C : Nat) (s : MMState) : MMState :=
  if s.loaded.length < C then s
  else evictLoop s (s.loaded.length - C + 1)

/-- Result of the Ollama interactions inside `load_model` (show / pull /
smoke-test generation): either the model is served successfully or some step
fails (not-found with failed pull, timeout, or any other error). -/
inductive LoadOutcome where
  | success
  | backendFailure

/-- `ModelManager.load_model`: unknown models fail before any cache change;
already-resident models are refreshed to most recently used; otherwise
capacity is ensured (evicting idle models only), the backend is exercised
(`outcome`), and on success the model is inserted at the most recently used
position.  Note that when every resident model is busy the capacity step is a
no-op and the insertion still happens. -/
def load_model (C : Nat) (configured : String → Bool) (outcome : LoadOutcome)
    (s : MMState) (m : String) : MMState × Bool :=
  if ¬ configured m then (s, false)
  else if m ∈ s.loaded then (moveToEnd s m, true)
  else
    let s1 := ensure_model_capacity C s
    match outcome with
    | .backendFailure => (s1, false)
    | .success => ({ s1 with loaded := s1.loaded ++ [m] }, true)

/-- `ModelManager.start_inference`: refuse when the model is not resident or
at its per-model concurrency limit; otherwise increment the counter and touch
recency. -/
def start_inference (maxConc : String → Nat) (s : MMState) (m : String) : MMState × Bool :=
  if m ∉ s.loaded then (s, false)
  else if maxConc m ≤ getActive s m then (s, false)
  else (moveToEnd (setActive s m (getActive s m + 1)) m, true)

/-- `ModelManager.end_inference`: decrement the counter, never below zero. -/
def end_inference (s : MMState) (m : String) : MMState :=
  if 0 < getActive s m then setActive s m (getActive s m - 1) else s

/-- One call on the model manager. -/
inductive MMOp where
  | load (m : String) (outcome : LoadOutcome)
  | unload (m : String)
  | startInf (m : String)
  | endInf (m : String)

/-- Apply one call to the state (return values dropped). -/
def mmStep (C : Nat) (configured : String → Bool) (maxConc : String → Nat)
    (s : MMState) : MMOp → MMState
  | .load m outcome => (load_model C configured outcome s m).1
  | .unload m => (unload_model s m).1
  | .startInf m => (start_inference maxConc s m).1
  | .endInf m => end_inference s m

/-- Run a sequence of calls from a starting state. -/
def mmRun (C : Nat) (configured : String → Bool) (maxConc : String → Nat)
    (s : MMState) (ops : List MMOp) : MMState :=
  ops.foldl (mmStep C configured maxConc) s

/-- The fresh manager state (`__init__`). -/
def mmInit : MMState := { loaded := [], active := [] }

/-- The default scoring configuration
(`ignore_array_order=True`, `float_tolerance=1e-6`, `ignore_extra_fields=True`). -/
def cfgDefault : Cfg :=
  { ignore_order := true, float_tolerance := 1/1000000, ignore_extra_fields := true }

/-- Trivial stand-in for `_parse_response` used at concrete inputs
(strategy 4: the raw string). -/
def parseRaw : String → Json := fun s => .str s

/-- A task record for a model whose provider call raised `ProviderException`. -/
def failedTask : TaskRecord :=
  evaluate_single_model parseRaw (.obj []) "exact_match" cfgDefault (.providerError "boom")

/-- A one-model execution before any task ran. -/
def execBefore : ExecutionRec :=
  { status := "running", error_message := none, progress := 0,
    total_evaluations := 1, successful_evaluations := 0, failed_evaluations := 0 }

/-- The finalized execution of a one-model batch whose only task failed. -/
def execAllFailed : ExecutionRec :=
  finalize_execution (update_execution_progress [failedTask] execBefore)

/-- Every model is configured. -/
def mmCfgAll : String → Bool := fun _ => true

/-- Per-model concurrency limit 1 for every model. -/
def mmConcOne : String → Nat := fun _ => 1

/-- Capacity-1 manager after loading model a and starting an inference on it:
the single resident model is busy. -/
def mmBusyOne : MMState :=
  mmRun 1 mmCfgAll mmConcOne mmInit [.load "a" .success, .startInf "a"]

/-- The state after then loading model b into the full, all-busy cache. -/
def mmOverCap : MMState × Bool := load_model 1 mmCfgAll .success mmBusyOne "b"

/-- The two-element list pair refuting permutation invariance of the greedy
matcher: the empty dict matches the dict with an extra ignored field
perfectly, consuming it. -/
def permActual : List Json := [.obj [("a", .int 1)], .obj []]

/-- Expected side of the permutation counterexample. -/
def permExpected : List Json := [.obj [], .obj [("a", .int 1)]]

/-! ### Structural induction and size lemmas -/

theorem Json.strongInd (P : Json → Prop)
    (h : ∀ e, (∀ e2, sizeOf e2 < sizeOf e → P e2) → P e) : ∀ e, P e := by
  have key : ∀ n e, sizeOf e < n → P e := by
    intro n
    induction n with
    | zero => intro e he; omega
    | succ n ih => intro e he; exact h e (fun e2 h2 => ih e2 (by omega))
  intro e
  exact key (sizeOf e + 1) e (by omega)

theorem sizeOf_snd_lt_obj {p : String × Json} {ef : List (String × Json)}
    (hp : p ∈ ef) : sizeOf p.2 < sizeOf (Json.obj ef) := by
  have h1 := List.sizeOf_lt_of_mem hp
  obtain ⟨k, v⟩ := p
  simp only [Prod.mk.sizeOf_spec] at h1
  simp only [Json.obj.sizeOf_spec]
  omega

theorem sizeOf_mem_lt_arr {x : Json} {l : List Json}
    (hx : x ∈ l) : sizeOf x < sizeOf (Json.arr l) := by
  have h1 := List.sizeOf_lt_of_mem hx
  simp only [Json.arr.sizeOf_spec]
  omega

/-! ### Score bounds: every comparison score lies in the unit interval -/

theorem fieldsSum_bounds (cfg : Cfg) (af : List (String × Json)) :
    ∀ l : List (String × Json),
      (∀ p ∈ l, ∀ a, 0 ≤ compare_structures cfg a p.2 ∧ compare_structures cfg a p.2 ≤ 1) →
      0 ≤ fieldsSum cfg af l ∧ fieldsSum cfg af l ≤ (l.length : ℚ) := by
  intro l
  induction l with
  | nil => intro _; simp [fieldsSum]
  | cons p rest ih =>
    intro h
    obtain ⟨k, ev⟩ := p
    have hrest := ih (fun q hq a => h q (List.mem_cons_of_mem _ hq) a)
    have hself := fun a => h (k, ev) (List.mem_cons_self _ _) a
    have hterm : 0 ≤ (match lookupField af k with
        | none => (0 : ℚ)
        | some av => compare_structures cfg av ev) ∧
        (match lookupField af k with
        | none => (0 : ℚ)
        | some av => compare_structures cfg av ev) ≤ 1 := by
      cases hl : lookupField af k with
      | none => norm_num
      | some av => exact hself av
    simp only [fieldsSum, List.length_cons]
    push_cast
    constructor
    · linarith [hterm.1, hrest.1]
    · linarith [hterm.2, hrest.2]

theorem zipSum_bounds (cfg : Cfg) :
    ∀ (es as : List Json),
      (∀ e ∈ es, ∀ a, 0 ≤ compare_structures cfg a e ∧ compare_structures cfg a e ≤ 1) →
      0 ≤ zipSum cfg as es ∧ zipSum cfg as es ≤ (es.length : ℚ) := by
  intro es
  induction es with
  | nil => intro as _; cases as <;> simp [zipSum]
  | cons e rest ih =>
    intro as h
    cases as with
    | nil => simp [zipSum]; positivity
    | cons a as2 =>
      have hrest := ih as2 (fun q hq a2 => h q (List.mem_cons_of_mem _ hq) a2)
      have hself := h e (List.mem_cons_self _ _) a
      simp only [zipSum, List.length_cons]
      push_cast
      constructor
      · linarith [hself.1, hrest.1]
      · linarith [hself.2, hrest.2]

theorem bestMatch_snd_bounds (cfg : Cfg) (u : List Nat) (e : Json)
    (hb : ∀ a, 0 ≤ compare_structures cfg a e ∧ compare_structures cfg a e ≤ 1) :
    ∀ (l : List (Nat × Json)) (b : Option Nat × ℚ), 0 ≤ b.2 → b.2 ≤ 1 →
      0 ≤ (bestMatch cfg u e l b).2 ∧ (bestMatch cfg u e l b).2 ≤ 1 := by
  intro l
  induction l with
  | nil => intro b h0 h1; simpa [bestMatch] using ⟨h0, h1⟩
  | cons p rest ih =>
    intro b h0 h1
    obtain ⟨i, a⟩ := p
    simp only [bestMatch]
    split
    · exact ih b h0 h1
    · split
      · exact ih _ (hb a).1 (hb a).2
      · exact ih b h0 h1

theorem greedyTotal_bounds (cfg : Cfg) (as : List Json) :
    ∀ l : List Json,
      (∀ e ∈ l, ∀ a, 0 ≤ compare_structures cfg a e ∧ compare_structures cfg a e ≤ 1) →
      ∀ u, 0 ≤ greedyTotal cfg as u l ∧ greedyTotal cfg as u l ≤ (l.length : ℚ) := by
  intro l
  induction l with
  | nil => intro _ u; simp [greedyTotal]
  | cons e es ih =>
    intro h u
    have hbm := bestMatch_snd_bounds cfg u e (fun a => h e (List.mem_cons_self _ _) a)
      (enumFrom2 0 as) ((none : Option Nat), (0 : ℚ)) le_rfl zero_le_one
    have hrest := ih (fun q hq a => h q (List.mem_cons_of_mem _ hq) a)
    simp only [greedyTotal, List.length_cons]
    push_cast
    cases hb1 : (bestMatch cfg u e (enumFrom2 0 as) ((none : Option Nat), (0 : ℚ))).1 with
    | none =>
      simp only [hb1]
      exact ⟨by linarith [hbm.1, (hrest u).1], by linarith [hbm.2, (hrest u).2]⟩
    | some i =>
      simp only [hb1]
      exact ⟨by linarith [hbm.1, (hrest (i :: u)).1], by linarith [hbm.2, (hrest (i :: u)).2]⟩

theorem compare_dicts_bounds (cfg : Cfg) (af ef : List (String × Json))
    (h : ∀ p ∈ ef, ∀ a, 0 ≤ compare_structures cfg a p.2 ∧ compare_structures cfg a p.2 ≤ 1) :
    0 ≤ compare_dicts cfg af ef ∧ compare_dicts cfg af ef ≤ 1 := by
  unfold compare_dicts
  split
  · norm_num
  · split
    · norm_num
    · next hlen =>
      have hpos : (0 : ℚ) < (ef.length : ℚ) := by
        have : 0 < ef.length := Nat.pos_of_ne_zero hlen
        exact_mod_cast this
      have hfs := fieldsSum_bounds cfg af ef h
      constructor
      · exact div_nonneg hfs.1 (le_of_lt hpos)
      · rw [div_le_one hpos]
        exact hfs.2

theorem compare_lists_bounds (cfg : Cfg) (as es : List Json)
    (h : ∀ e ∈ es, ∀ a, 0 ≤ compare_structures cfg a e ∧ compare_structures cfg a e ≤ 1) :
    0 ≤ compare_lists cfg as es ∧ compare_lists cfg as es ≤ 1 := by
  unfold compare_lists
  split
  · norm_num
  · split
    · norm_num
    · next hlen =>
      have hpos : (0 : ℚ) < (es.length : ℚ) := by
        have : 0 < es.length := Nat.pos_of_ne_zero hlen
        exact_mod_cast this
      split
      · have hg := greedyTotal_bounds cfg as es h []
        exact ⟨div_nonneg hg.1 (le_of_lt hpos), by rw [div_le_one hpos]; exact hg.2⟩
      · have hz := zipSum_bounds cfg es as h
        exact ⟨div_nonneg hz.1 (le_of_lt hpos), by rw [div_le_one hpos]; exact hz.2⟩

theorem compare_structures_bounds :
    ∀ (e : Json) (cfg : Cfg) (a : Json),
      0 ≤ compare_structures cfg a e ∧ compare_structures cfg a e ≤ 1 := by
  apply Json.strongInd (fun e => ∀ (cfg : Cfg) (a : Json),
    0 ≤ compare_structures cfg a e ∧ compare_structures cfg a e ≤ 1)
  intro e ih cfg a
  unfold compare_structures
  split
  · norm_num
  · cases e with
    | obj ef =>
      cases a <;> try norm_num
      rename_i af hne
      exact compare_dicts_bounds cfg af ef
        (fun p hp a2 => ih p.2 (sizeOf_snd_lt_obj hp) cfg a2)
    | arr es =>
      cases a <;> try norm_num
      rename_i as hne2
      exact compare_lists_bounds cfg as es
        (fun x hx a2 => ih x (sizeOf_mem_lt_arr hx) cfg a2)
    | float y =>
      cases a <;> try norm_num
      split <;> norm_num
    | null => cases a <;> norm_num
    | bool b2 =>
      cases a <;> try norm_num
      split <;> norm_num
    | int n2 =>
      cases a <;> try norm_num
      split <;> norm_num
    | str s2 =>
      cases a <;> try norm_num
      split <;> norm_num

/-! ### Reflexivity: comparing a well-formed value with itself scores 1 -/

theorem lookupField_self :
    ∀ (ef : List (String × Json)) (k : String) (v : Json),
      nodupKeys (ef.map Prod.fst) = true → (k, v) ∈ ef → lookupField ef k = some v := by
  intro ef
  induction ef with
  | nil => intro k v _ h; simp at h
  | cons p rest ih =>
    intro k v hnd hmem
    obtain ⟨k0, v0⟩ := p
    simp only [List.map_cons, nodupKeys, Bool.and_eq_true, Bool.not_eq_true'] at hnd
    rcases List.mem_cons.mp hmem with heq | hmem2
    · obtain ⟨hk, hv⟩ := Prod.mk.injEq .. ▸ heq
      subst hk; subst hv
      simp [lookupField]
    · have hk : k0 ≠ k := by
        intro heq
        subst heq
        have hinlist : k0 ∈ rest.map Prod.fst := List.mem_map_of_mem Prod.fst hmem2
        have hc : (List.map Prod.fst rest).contains k0 = true := List.elem_eq_true_of_mem hinlist
        rw [hnd.1] at hc
        exact Bool.false_ne_true hc
      simp only [lookupField, if_neg hk]
      exact ih k v hnd.2 hmem2

theorem keySetEq_self (fs : List (String × Json)) : keySetEq fs fs = true := by
  simp only [keySetEq, Bool.and_eq_true, List.all_eq_true]
  constructor <;> intro k hk <;> exact List.elem_eq_true_of_mem hk

theorem wfList_mem : ∀ {l : List Json}, wfList l = true → ∀ {x}, x ∈ l → x.wfKeys = true := by
  intro l
  induction l with
  | nil => intro _ x hx; simp at hx
  | cons y ys ih =>
    intro h x hx
    simp only [wfList, Bool.and_eq_true] at h
    rcases List.mem_cons.mp hx with rfl | hx2
    · exact h.1
    · exact ih h.2 hx2

theorem wfFields_mem : ∀ {fs : List (String × Json)}, wfFields fs = true →
    ∀ {p : String × Json}, p ∈ fs → p.2.wfKeys = true := by
  intro fs
  induction fs with
  | nil => intro _ p hp; simp at hp
  | cons q qs ih =>
    intro h p hp
    obtain ⟨k0, v0⟩ := q
    simp only [wfFields, Bool.and_eq_true] at h
    rcases List.mem_cons.mp hp with rfl | hp2
    · exact h.1
    · exact ih h.2 hp2

theorem fieldsSum_full (cfg : Cfg) (af : List (String × Json)) :
    ∀ l : List (String × Json),
      (∀ p ∈ l, lookupField af p.1 = some p.2 ∧ compare_structures cfg p.2 p.2 = 1) →
      fieldsSum cfg af l = (l.length : ℚ) := by
  intro l
  induction l with
  | nil => intro _; simp [fieldsSum]
  | cons p rest ih =>
    intro h
    obtain ⟨k, ev⟩ := p
    have hhead := h (k, ev) (List.mem_cons_self _ _)
    have hrest := ih (fun q hq => h q (List.mem_cons_of_mem _ hq))
    simp only [fieldsSum, hhead.1, hhead.2, hrest, List.length_cons]
    push_cast
    ring

theorem zipSum_refl (cfg : Cfg) :
    ∀ l : List Json, (∀ x ∈ l, compare_structures cfg x x = 1) →
      zipSum cfg l l = (l.length : ℚ) := by
  intro l
  induction l with
  | nil => intro _; simp [zipSum]
  | cons x xs ih =>
    intro h
    have hx := h x (List.mem_cons_self _ _)
    have hxs := ih (fun y hy => h y (List.mem_cons_of_mem _ hy))
    simp only [zipSum, hx, hxs, List.length_cons]
    push_cast
    ring

theorem bestMatch_skip_used (cfg : Cfg) (u : List Nat) (e : Json) :
    ∀ (pre rest : List (Nat × Json)) (b : Option Nat × ℚ),
      (∀ p ∈ pre, p.1 ∈ u) →
      bestMatch cfg u e (pre ++ rest) b = bestMatch cfg u e rest b := by
  intro pre
  induction pre with
  | nil => intro rest b _; simp
  | cons p pre2 ih =>
    intro rest b h
    obtain ⟨i, a⟩ := p
    simp only [List.cons_append, bestMatch]
    rw [if_pos (h (i, a) (List.mem_cons_self _ _))]
    exact ih rest b (fun q hq => h q (List.mem_cons_of_mem _ hq))

theorem bestMatch_stay (cfg : Cfg) (u : List Nat) (e : Json) :
    ∀ (l : List (Nat × Json)) (b : Option Nat × ℚ),
      (∀ p ∈ l, compare_structures cfg p.2 e ≤ b.2) →
      bestMatch cfg u e l b = b := by
  intro l
  induction l with
  | nil => intro b _; simp [bestMatch]
  | cons p rest ih =>
    intro b h
    obtain ⟨i, a⟩ := p
    simp only [bestMatch]
    split
    · exact ih b (fun q hq => h q (List.mem_cons_of_mem _ hq))
    · rw [if_neg (not_lt.mpr (h (i, a) (List.mem_cons_self _ _)))]
      exact ih b (fun q hq => h q (List.mem_cons_of_mem _ hq))

theorem enumFrom2_append :
    ∀ (xs ys : List Json) (i : Nat),
      enumFrom2 i (xs ++ ys) = enumFrom2 i xs ++ enumFrom2 (i + xs.length) ys := by
  intro xs
  induction xs with
  | nil => intro ys i; simp [enumFrom2]
  | cons x xs2 ih =>
    intro ys i
    simp only [List.cons_append, enumFrom2, List.length_cons, List.append_eq]
    have heq : i + 1 + xs2.length = i + (xs2.length + 1) := by omega
    rw [ih, heq]

theorem mem_enumFrom2_lt :
    ∀ (l : List Json) (i : Nat) (p : Nat × Json),
      p ∈ enumFrom2 i l → i ≤ p.1 ∧ p.1 < i + l.length := by
  intro l
  induction l with
  | nil => intro i p h; simp [enumFrom2] at h
  | cons x xs ih =>
    intro i p h
    simp only [enumFrom2, List.mem_cons] at h
    rcases h with rfl | h2
    · simp
    · have := ih (i + 1) p h2
      simp only [List.length_cons]
      omega

theorem mem_enumFrom2_snd :
    ∀ (l : List Json) (i : Nat) (p : Nat × Json), p ∈ enumFrom2 i l → p.2 ∈ l := by
  intro l
  induction l with
  | nil => intro i p h; simp [enumFrom2] at h
  | cons x xs ih =>
    intro i p h
    simp only [enumFrom2, List.mem_cons] at h
    rcases h with rfl | h2
    · simp
    · exact List.mem_cons_of_mem _ (ih (i + 1) p h2)

theorem greedyTotal_refl (cfg : Cfg) (full : List Json)
    (hrefl : ∀ x ∈ full, compare_structures cfg x x = 1) :
    ∀ (l : List Json) (j : Nat) (u : List Nat), full.drop j = l →
      (∀ i, i ∈ u ↔ i < j) →
      greedyTotal cfg full u l = (l.length : ℚ) := by
  intro l
  induction l with
  | nil => intro j u _ _; simp [greedyTotal]
  | cons e es ih =>
    intro j u hdrop hu
    have hjlen : j < full.length := by
      by_contra hge
      rw [List.drop_eq_nil_of_le (le_of_not_lt hge)] at hdrop
      exact List.cons_ne_nil e es hdrop.symm
    have htake : (full.take j).length = j := List.length_take_of_le (le_of_lt hjlen)
    have hfull : full.take j ++ e :: es = full := by
      rw [← hdrop]; exact List.take_append_drop j full
    have hemem : e ∈ full := by
      rw [← hfull]; exact List.mem_append_right _ (List.mem_cons_self _ _)
    -- the enumeration splits at position j
    have henum : enumFrom2 0 full =
        enumFrom2 0 (full.take j) ++ (j, e) :: enumFrom2 (j + 1) es := by
      conv_lhs => rw [← hfull]
      rw [enumFrom2_append, htake]
      simp [enumFrom2]
    -- the first j entries are all used
    have hpre : ∀ p ∈ enumFrom2 0 (full.take j), p.1 ∈ u := by
      intro p hp
      have := mem_enumFrom2_lt _ _ _ hp
      rw [htake] at this
      exact (hu p.1).mpr (by omega)
    -- the head entry is unused and scores 1; everything after cannot beat 1
    have hbm : bestMatch cfg u e (enumFrom2 0 full) ((none : Option Nat), (0 : ℚ)) =
        (some j, 1) := by
      rw [henum, bestMatch_skip_used cfg u e _ _ _ hpre]
      simp only [bestMatch]
      rw [if_neg (by rw [hu j]; omega)]
      simp only [hrefl e hemem]
      rw [if_pos (by norm_num)]
      exact bestMatch_stay cfg u e _ _
        (fun p _ => (compare_structures_bounds e cfg p.2).2)
    have hdrop2 : full.drop (j + 1) = es := by
      have : full.drop (j + 1) = (full.drop j).tail := by
        rw [← List.drop_drop]
        simp [List.drop_one]
      rw [this, hdrop]
      rfl
    have hu2 : ∀ i, i ∈ (j :: u) ↔ i < j + 1 := by
      intro i
      simp only [List.mem_cons, hu]
      omega
    have hrest := ih (j + 1) (j :: u) hdrop2 hu2
    simp only [greedyTotal, hbm, List.length_cons]
    rw [hrest]
    push_cast
    ring

theorem compare_structures_refl :
    ∀ (e : Json) (cfg : Cfg), 0 ≤ cfg.float_tolerance → e.wfKeys = true →
      compare_structures cfg e e = 1 := by
  apply Json.strongInd (fun e => ∀ (cfg : Cfg), 0 ≤ cfg.float_tolerance →
    e.wfKeys = true → compare_structures cfg e e = 1)
  intro e ih cfg htol hwf
  unfold compare_structures
  rw [if_neg (by simp)]
  cases e with
  | null => rfl
  | bool b => simp
  | int n => simp
  | str s => simp
  | float x => simp [htol]
  | obj ef =>
    simp only [Json.wfKeys, Bool.and_eq_true] at hwf
    unfold compare_dicts
    rw [if_neg (by simp [keySetEq_self])]
    split
    · rfl
    · next hlen =>
      have hsum := fieldsSum_full cfg ef ef (fun p hp =>
        ⟨by
          obtain ⟨k, v⟩ := p
          exact lookupField_self ef k v hwf.1 hp,
         ih p.2 (sizeOf_snd_lt_obj hp) cfg htol (wfFields_mem hwf.2 hp)⟩)
      rw [hsum]
      exact div_self (by exact_mod_cast hlen)
  | arr es =>
    simp only [Json.wfKeys] at hwf
    unfold compare_lists
    rw [if_neg (by simp)]
    split
    · rfl
    · next hlen =>
      have hsrefl : ∀ x ∈ es, compare_structures cfg x x = 1 :=
        fun x hx => ih x (sizeOf_mem_lt_arr hx) cfg htol (wfList_mem hwf hx)
      split
      · rw [greedyTotal_refl cfg es hsrefl es 0 [] (by simp) (by simp)]
        exact div_self (by exact_mod_cast hlen)
      · rw [zipSum_refl cfg es hsrefl]
        exact div_self (by exact_mod_cast hlen)

/-! ### Greedy matching of a permutation -/

theorem map_snd_enumFrom2 : ∀ (l : List Json) (i : Nat), (enumFrom2 i l).map Prod.snd = l := by
  intro l
  induction l with
  | nil => intro i; simp [enumFrom2]
  | cons x xs ih => intro i; simp [enumFrom2, ih]

theorem map_fst_enumFrom2 :
    ∀ (l : List Json) (i : Nat), (enumFrom2 i l).map Prod.fst = List.range' i l.length := by
  intro l
  induction l with
  | nil => intro i; simp [enumFrom2]
  | cons x xs ih => intro i; simp [enumFrom2, ih, List.range']

theorem nodup_fst_enumFrom2 (l : List Json) (i : Nat) :
    ((enumFrom2 i l).map Prod.fst).Nodup := by
  rw [map_fst_enumFrom2]
  exact List.nodup_range' _ _

theorem filter_unused_split :
    ∀ (L : List (Nat × Json)) (u : List Nat) (i : Nat) (a : Json),
      (L.map Prod.fst).Nodup → (i, a) ∈ L → i ∉ u →
      (L.filter (fun p => decide (p.1 ∉ u))).Perm
        ((i, a) :: L.filter (fun p => decide (p.1 ∉ i :: u))) := by
  intro L
  induction L with
  | nil => intro u i a _ h; simp at h
  | cons q L2 ih =>
    intro u i a hnd hmem hiu
    obtain ⟨qi, qa⟩ := q
    simp only [List.map_cons, List.nodup_cons] at hnd
    rcases List.mem_cons.mp hmem with heq | hmem2
    · obtain ⟨h1, h2⟩ := Prod.mk.injEq .. ▸ heq
      subst h1
      subst h2
      rw [List.filter_cons_of_pos (by simpa using hiu)]
      rw [List.filter_cons_of_neg (by simp)]
      apply List.Perm.cons
      have hsame : ∀ p ∈ L2, (decide (p.1 ∉ u)) = (decide (p.1 ∉ i :: u)) := by
        intro p hp
        have hne : p.1 ≠ i := by
          intro h
          apply hnd.1
          rw [← h]
          exact List.mem_map_of_mem Prod.fst hp
        simp [List.mem_cons, hne]
      rw [List.filter_congr hsame]
    · have hqi_ne : qi ≠ i := by
        intro h
        subst h
        exact hnd.1 (by simpa using List.mem_map_of_mem Prod.fst hmem2)
      by_cases hq : qi ∉ u
      · rw [List.filter_cons_of_pos (by simpa using hq),
            List.filter_cons_of_pos
              (by simp only [decide_eq_true_eq, List.mem_cons, not_or]; exact ⟨hqi_ne, hq⟩)]
        exact (((ih u i a hnd.2 hmem2 hiu).cons _).trans (List.Perm.swap _ _ _))
      · rw [List.filter_cons_of_neg (by simpa using hq),
            List.filter_cons_of_neg
              (by simp only [decide_eq_true_eq]
                  exact fun hcon => hcon (List.mem_cons_of_mem _ (not_not.mp hq)))]
        exact ih u i a hnd.2 hmem2 hiu

theorem bestMatch_finds_one (cfg : Cfg) (u : List Nat) (e : Json) :
    ∀ (l : List (Nat × Json)) (b : Option Nat × ℚ),
      (∀ p ∈ l, compare_structures cfg p.2 e ≤ 1) → b.2 < 1 →
      (∃ p, p ∈ l ∧ p.1 ∉ u ∧ compare_structures cfg p.2 e = 1) →
      ∃ i a, (i, a) ∈ l ∧ i ∉ u ∧ compare_structures cfg a e = 1 ∧
        bestMatch cfg u e l b = (some i, 1) := by
  intro l
  induction l with
  | nil =>
    intro b _ _ hex
    obtain ⟨p, hp, _⟩ := hex
    simp at hp
  | cons q rest ih =>
    intro b hle hb hex
    obtain ⟨qi, qa⟩ := q
    simp only [bestMatch]
    by_cases hqu : qi ∈ u
    · rw [if_pos hqu]
      obtain ⟨p, hp, hpu, hps⟩ := hex
      have hprest : p ∈ rest := by
        rcases List.mem_cons.mp hp with rfl | h2
        · exact absurd hqu hpu
        · exact h2
      obtain ⟨i, a, hmem, hiu2, hs, heq⟩ :=
        ih b (fun p2 hp2 => hle p2 (List.mem_cons_of_mem _ hp2)) hb ⟨p, hprest, hpu, hps⟩
      exact ⟨i, a, List.mem_cons_of_mem _ hmem, hiu2, hs, heq⟩
    · rw [if_neg hqu]
      by_cases hs1 : compare_structures cfg qa e = 1
      · rw [hs1, if_pos hb]
        refine ⟨qi, qa, List.mem_cons_self _ _, hqu, hs1, ?_⟩
        exact bestMatch_stay cfg u e rest (some qi, 1)
          (fun p2 hp2 => hle p2 (List.mem_cons_of_mem _ hp2))
      · have hslt : compare_structures cfg qa e < 1 :=
          lt_of_le_of_ne (hle (qi, qa) (List.mem_cons_self _ _)) hs1
        obtain ⟨p, hp, hpu, hps⟩ := hex
        have hprest : p ∈ rest := by
          rcases List.mem_cons.mp hp with rfl | h2
          · exact absurd hps hs1
          · exact h2
        split
        · obtain ⟨i, a, hmem, hiu2, hs, heq⟩ :=
            ih (some qi, compare_structures cfg qa e)
              (fun p2 hp2 => hle p2 (List.mem_cons_of_mem _ hp2)) hslt ⟨p, hprest, hpu, hps⟩
          exact ⟨i, a, List.mem_cons_of_mem _ hmem, hiu2, hs, heq⟩
        · obtain ⟨i, a, hmem, hiu2, hs, heq⟩ :=
            ih b (fun p2 hp2 => hle p2 (List.mem_cons_of_mem _ hp2)) hb ⟨p, hprest, hpu, hps⟩
          exact ⟨i, a, List.mem_cons_of_mem _ hmem, hiu2, hs, heq⟩

theorem greedyTotal_perm (cfg : Cfg) (as : List Json)
    (hiff : ∀ a e, a ∈ as → e ∈ as → (compare_structures cfg a e = 1 ↔ a = e)) :
    ∀ (l : List Json) (u : List Nat),
      l.Perm (((enumFrom2 0 as).filter (fun p => decide (p.1 ∉ u))).map Prod.snd) →
      greedyTotal cfg as u l = (l.length : ℚ) := by
  intro l
  induction l with
  | nil => intro u _; simp [greedyTotal]
  | cons e es ih =>
    intro u hperm
    have he : e ∈ ((enumFrom2 0 as).filter (fun p => decide (p.1 ∉ u))).map Prod.snd :=
      hperm.mem_iff.mp (List.mem_cons_self _ _)
    obtain ⟨p, hpfilter, hpsnd⟩ := List.mem_map.mp he
    obtain ⟨i0, a0⟩ := p
    have hpmem : (i0, a0) ∈ enumFrom2 0 as := List.mem_of_mem_filter hpfilter
    have hpu : i0 ∉ u := by simpa using List.of_mem_filter hpfilter
    have ha0 : a0 = e := hpsnd
    subst ha0
    have heas : a0 ∈ as := by
      have := mem_enumFrom2_snd as 0 (i0, a0) hpmem
      simpa using this
    have hse : compare_structures cfg a0 a0 = 1 := (hiff a0 a0 heas heas).mpr rfl
    obtain ⟨i1, a1, h1mem, h1u, h1score, h1eq⟩ :=
      bestMatch_finds_one cfg u a0 (enumFrom2 0 as) ((none : Option Nat), (0 : ℚ))
        (fun p2 _ => (compare_structures_bounds a0 cfg p2.2).2) (by norm_num)
        ⟨(i0, a0), hpmem, hpu, hse⟩
    have ha1as : a1 ∈ as := by
      have := mem_enumFrom2_snd as 0 (i1, a1) h1mem
      simpa using this
    have ha1e : a1 = a0 := (hiff a1 a0 ha1as heas).mp h1score
    subst ha1e
    have hnd := nodup_fst_enumFrom2 as 0
    have hsplit := filter_unused_split (enumFrom2 0 as) u i1 a1 hnd h1mem h1u
    have hchain : (a1 :: es).Perm
        (a1 :: ((enumFrom2 0 as).filter (fun p => decide (p.1 ∉ i1 :: u))).map Prod.snd) := by
      refine hperm.trans ?_
      have := hsplit.map Prod.snd
      simpa using this
    have hes : es.Perm
        (((enumFrom2 0 as).filter (fun p => decide (p.1 ∉ i1 :: u))).map Prod.snd) :=
      hchain.cons_inv
    have hrest := ih (i1 :: u) hes
    simp only [greedyTotal, h1eq, List.length_cons]
    rw [hrest]
    push_cast
    ring

theorem compare_arr_of_perm (cfg : Cfg) (actual expected : List Json)
    (hord : cfg.ignore_order = true) (hperm : actual.Perm expected)
    (hiff : ∀ a e, a ∈ actual → e ∈ actual →
      (compare_structures cfg a e = 1 ↔ a = e)) :
    compare_structures cfg (.arr actual) (.arr expected) = 1 := by
  have hinit : expected.Perm
      (((enumFrom2 0 actual).filter (fun p => decide (p.1 ∉ ([] : List Nat)))).map Prod.snd) := by
    have hfilter : (enumFrom2 0 actual).filter (fun p => decide (p.1 ∉ ([] : List Nat))) =
        enumFrom2 0 actual := by
      apply List.filter_eq_self.mpr
      intro p _
      simp
    rw [hfilter, map_snd_enumFrom2]
    exact hperm.symm
  unfold compare_structures
  rw [if_neg (by simp [Json.tag])]
  unfold compare_lists
  rw [if_neg (by simp [hperm.length_eq])]
  by_cases hlen0 : expected.length = 0
  · rw [if_pos hlen0]
  · rw [if_neg hlen0, if_pos hord, greedyTotal_perm cfg actual hiff expected [] hinit]
    exact div_self (by exact_mod_cast hlen0)

theorem fieldsSum_eq_map_sum (cfg : Cfg) (af : List (String × Json)) :
    ∀ l : List (String × Json),
      fieldsSum cfg af l = (l.map (fun p =>
        match lookupField af p.1 with
        | none => (0 : ℚ)
        | some av => compare_structures cfg av p.2)).sum := by
  intro l
  induction l with
  | nil => simp [fieldsSum]
  | cons p rest ih =>
    obtain ⟨k, ev⟩ := p
    simp only [fieldsSum, ih, List.map_cons, List.sum_cons]

/-! ### Claim theorems -/

/-- C5: for every pair of values (actual, expected) and every configuration of
tolerance and order/extra-field flags with tolerance ≥ 0, the recursive
structural comparison returns a score in the closed interval [0, 1]. -/
theorem claim_compare_score_in_unit_interval (cfg : Cfg) (actual expected : Json)
    (htol : 0 ≤ cfg.float_tolerance) :
    0 ≤ compare_structures cfg actual expected ∧
      compare_structures cfg actual expected ≤ 1 :=
  compare_structures_bounds expected cfg actual

theorem claim_compare_score_in_unit_interval_witness :
    0 ≤ cfgDefault.float_tolerance ∧
      (0 ≤ compare_structures cfgDefault (.int 3) (.str "x") ∧
       compare_structures cfgDefault (.int 3) (.str "x") ≤ 1) :=
  ⟨by norm_num [cfgDefault],
   claim_compare_score_in_unit_interval cfgDefault (.int 3) (.str "x")
     (by norm_num [cfgDefault])⟩

/-- C3: for every structured value V (well formed, i.e. with the distinct dict
keys every Python value has), every float tolerance ≥ 0, and every setting of
the ignore-array-order and ignore-extra-fields flags, the recursive structural
comparison of V against itself returns score exactly 1. -/
theorem claim_compare_reflexive (cfg : Cfg) (V : Json)
    (htol : 0 ≤ cfg.float_tolerance) (hwf : V.wfKeys = true) :
    compare_structures cfg V V = 1 :=
  compare_structures_refl V cfg htol hwf

theorem claim_compare_reflexive_witness :
    0 ≤ cfgDefault.float_tolerance ∧
    (Json.obj [("a", .int 1), ("b", .arr [.float (1/2), .str "x"])]).wfKeys = true ∧
    compare_structures cfgDefault
      (Json.obj [("a", .int 1), ("b", .arr [.float (1/2), .str "x"])])
      (Json.obj [("a", .int 1), ("b", .arr [.float (1/2), .str "x"])]) = 1 :=
  ⟨by norm_num [cfgDefault],
   by simp [Json.wfKeys, wfFields, wfList, nodupKeys, List.contains, List.elem],
   claim_compare_reflexive cfgDefault _ (by norm_num [cfgDefault])
     (by simp [Json.wfKeys, wfFields, wfList, nodupKeys, List.contains, List.elem])⟩

/-- C4 counterexample: with the default configuration (order ignored, extra
fields ignored), `permActual` is a permutation of `permExpected` with
pairwise-identical elements, yet the greedy best-match comparison scores 1/2:
the empty expected dict consumes the non-empty actual dict (score 1 under
ignored extra fields), leaving nothing that matches the non-empty expected
dict. -/
theorem counterexample_greedy_permutation :
    cfgDefault.ignore_order = true ∧
    permActual.Perm permExpected ∧
    compare_structures cfgDefault (.arr permActual) (.arr permExpected) = 1/2 := by
  refine ⟨rfl, ?_, ?_⟩
  · simp only [permActual, permExpected]
    exact List.Perm.swap _ _ _
  · simp [permActual, permExpected, compare_structures, compare_lists, compare_dicts,
      greedyTotal, bestMatch, enumFrom2, fieldsSum, lookupField, keySetEq, Json.tag,
      cfgDefault]

/-- C4 (amended): if ignoreArrayOrder is true and the actual list is a
permutation of the expected list, and pairwise comparison scores 1 only for
identical elements (which holds for scalar elements, but fails e.g. for dicts
under ignored extra fields), then the greedy best-match list comparison
returns score exactly 1. -/
theorem claim_greedy_permutation_amended (cfg : Cfg) (actual expected : List Json)
    (hord : cfg.ignore_order = true) (hperm : actual.Perm expected)
    (hiff : ∀ a e, a ∈ actual → e ∈ actual →
      (compare_structures cfg a e = 1 ↔ a = e)) :
    compare_structures cfg (.arr actual) (.arr expected) = 1 :=
  compare_arr_of_perm cfg actual expected hord hperm hiff

theorem claim_greedy_permutation_amended_witness :
    cfgDefault.ignore_order = true ∧
    ([Json.int 2, Json.int 1]).Perm [Json.int 1, Json.int 2] ∧
    compare_structures cfgDefault (.arr [.int 2, .int 1]) (.arr [.int 1, .int 2]) = 1 :=
  ⟨rfl, List.Perm.swap _ _ _,
   claim_greedy_permutation_amended cfgDefault [.int 2, .int 1] [.int 1, .int 2] rfl
     (List.Perm.swap _ _ _)
     (by
       intro a e ha he
       simp only [List.mem_cons, List.not_mem_nil, or_false] at ha he
       rcases ha with rfl | rfl <;> rcases he with rfl | rfl <;>
         simp [compare_structures, Json.tag])⟩

/-- C6: when the expected value is a mapping (and, if ignoreExtraFields is
false, the key sets are equal), the comparison score equals the sum over
expected keys of the recursive per-key scores — a key missing from the actual
mapping contributing 0 — divided by the number of expected keys; an empty
expected mapping scores exactly 1; the denominator is always the number of
expected keys, never reduced by missing keys. -/
theorem claim_dict_scoring (cfg : Cfg) (af ef : List (String × Json))
    (h : cfg.ignore_extra_fields = true ∨ keySetEq af ef = true) :
    compare_structures cfg (.obj af) (.obj ef) =
      if ef.length = 0 then 1
      else (ef.map (fun p =>
        match lookupField af p.1 with
        | none => (0 : ℚ)
        | some av => compare_structures cfg av p.2)).sum / (ef.length : ℚ) := by
  have hstep : compare_structures cfg (.obj af) (.obj ef) = compare_dicts cfg af ef := by
    unfold compare_structures
    rw [if_neg (by simp [Json.tag])]
  rw [hstep]
  unfold compare_dicts
  rw [if_neg (by rcases h with h | h <;> simp [h])]
  rw [fieldsSum_eq_map_sum]

theorem claim_dict_scoring_witness :
    cfgDefault.ignore_extra_fields = true ∧
    compare_structures cfgDefault (.obj [("a", .int 1)])
        (.obj [("a", .int 1), ("b", .int 2)]) =
      if ([("a", Json.int 1), ("b", Json.int 2)] : List (String × Json)).length = 0 then 1
      else (([("a", Json.int 1), ("b", Json.int 2)] : List (String × Json)).map (fun p =>
        match lookupField [("a", .int 1)] p.1 with
        | none => (0 : ℚ)
        | some av => compare_structures cfgDefault av p.2)).sum /
          (([("a", Json.int 1), ("b", Json.int 2)] : List (String × Json)).length : ℚ) :=
  ⟨rfl, claim_dict_scoring cfgDefault [("a", .int 1)] [("a", .int 1), ("b", .int 2)]
    (Or.inl rfl)⟩

/-- C7: for every evaluation task, the outcome of the provider call determines
the terminal record exactly as: per-task timeout → status timeout / errorType
timeout; ProviderError → failed / provider_error; any other exception →
failed / unknown_error; success → completed with no error type. -/
theorem claim_task_outcome_mapping (parse : String → Json) (expected_output : Json)
    (evaluation_type : String) (cfg : Cfg) (outcome : ProviderOutcome) :
    ((evaluate_single_model parse expected_output evaluation_type cfg outcome).status,
     (evaluate_single_model parse expected_output evaluation_type cfg outcome).error_type) =
      match outcome with
      | .timeout => ("timeout", some "timeout")
      | .providerError _ => ("failed", some "provider_error")
      | .otherError _ => ("failed", some "unknown_error")
      | .success _ => ("completed", none) := by
  cases outcome <;> rfl

theorem exact_match_shape (p ex : Json) :
    (∃ c : Bool, evaluate_exact_match p ex =
        .ok { is_correct := c, accuracy_score := if c then 1 else 0,
              error := none, parsed_output := none }) ∨
    (∃ e, evaluate_exact_match p ex = .error e) := by
  cases p <;> cases ex <;>
    first
      | exact Or.inl ⟨_, rfl⟩
      | exact Or.inr ⟨_, rfl⟩

theorem structured_match_shape (p ex : Json) (cfg : Cfg) :
    (∃ r, evaluate_structured_match p ex cfg = .ok r ∧ r.error = none) ∨
    (∃ e, evaluate_structured_match p ex cfg = .error e) := by
  have hx := exact_match_shape p ex
  cases p <;> cases ex <;>
    first
      | exact Or.inl ⟨_, rfl, rfl⟩
      | (rcases hx with ⟨c, hok⟩ | ⟨e, herr⟩
         · exact Or.inl ⟨_, hok, rfl⟩
         · exact Or.inr ⟨e, herr⟩)

/-- C8: for every response string, expected value, evaluation type, and
config, evaluate_response never raises: either it returns a result with no
error recorded, or a degraded result with correctness false, score 0 and the
error message recorded; in particular an unknown evaluation type degrades
with the message "Unknown evaluation type: <type>" rather than propagating. -/
theorem claim_evaluate_response_total (parse : String → Json) (response : String)
    (expected_output : Json) (evaluation_type : String) (cfg : Cfg) :
    ((evaluate_response parse response expected_output evaluation_type cfg).error = none ∨
     ((evaluate_response parse response expected_output evaluation_type cfg).is_correct = false ∧
      (evaluate_response parse response expected_output evaluation_type cfg).accuracy_score = 0 ∧
      (evaluate_response parse response expected_output evaluation_type cfg).error ≠ none)) ∧
    (evaluation_type ≠ "exact_match" → evaluation_type ≠ "structured_match" →
     evaluation_type ≠ "llm_judge" →
      (evaluate_response parse response expected_output evaluation_type cfg).is_correct = false ∧
      (evaluate_response parse response expected_output evaluation_type cfg).accuracy_score = 0 ∧
      (evaluate_response parse response expected_output evaluation_type cfg).error =
        some ("Unknown evaluation type: " ++ evaluation_type)) := by
  by_cases h1 : evaluation_type = "exact_match"
  · refine ⟨?_, fun hne1 _ _ => absurd h1 hne1⟩
    simp only [evaluate_response, if_pos h1]
    rcases exact_match_shape (parse response) expected_output with ⟨c, hok⟩ | ⟨e, herr⟩
    · rw [hok]
      left
      rfl
    · rw [herr]
      right
      exact ⟨rfl, rfl, by simp⟩
  · by_cases h2 : evaluation_type = "structured_match"
    · refine ⟨?_, fun _ hne2 _ => absurd h2 hne2⟩
      simp only [evaluate_response, if_neg h1, if_pos h2]
      rcases structured_match_shape (parse response) expected_output cfg with
        ⟨r, hok, herr0⟩ | ⟨e, herr⟩
      · rw [hok]
        left
        simpa using herr0
      · rw [herr]
        right
        exact ⟨rfl, rfl, by simp⟩
    · by_cases h3 : evaluation_type = "llm_judge"
      · refine ⟨?_, fun _ _ hne3 => absurd h3 hne3⟩
        simp only [evaluate_response, if_neg h1, if_neg h2, if_pos h3]
        rcases structured_match_shape (.str response) expected_output cfg with
          ⟨r, hok, herr0⟩ | ⟨e, herr⟩
        · rw [hok]
          left
          simpa using herr0
        · rw [herr]
          right
          exact ⟨rfl, rfl, by simp⟩
      · refine ⟨Or.inr ⟨?_, ?_, ?_⟩, fun _ _ _ => ⟨?_, ?_, ?_⟩⟩ <;>
          simp [evaluate_response, if_neg h1, if_neg h2, if_neg h3]

theorem claim_evaluate_response_total_witness :
    ("bogus" : String) ≠ "exact_match" ∧ ("bogus" : String) ≠ "structured_match" ∧
    ("bogus" : String) ≠ "llm_judge" ∧
    ((evaluate_response parseRaw "x" (.obj []) "bogus" cfgDefault).is_correct = false ∧
     (evaluate_response parseRaw "x" (.obj []) "bogus" cfgDefault).accuracy_score = 0 ∧
     (evaluate_response parseRaw "x" (.obj []) "bogus" cfgDefault).error =
       some ("Unknown evaluation type: " ++ "bogus")) :=
  ⟨by decide, by decide, by decide,
   (claim_evaluate_response_total parseRaw "x" (.obj []) "bogus" cfgDefault).2
     (by decide) (by decide) (by decide)⟩

/-- C9: if the evaluation type is structured_match but the parsed output or
the expected value is not a mapping, the scorer does not run the recursive
structural comparison — it falls back to the exact-match path — and the score
recorded by evaluate_response is exactly 0 or 1 in that case. -/
theorem claim_structured_fallback (parse : String → Json) (response : String)
    (expected_output : Json) (cfg : Cfg)
    (h : (parse response).isObj = false ∨ expected_output.isObj = false) :
    evaluate_structured_match (parse response) expected_output cfg =
      evaluate_exact_match (parse response) expected_output ∧
    ((evaluate_response parse response expected_output "structured_match" cfg).accuracy_score = 0 ∨
     (evaluate_response parse response expected_output "structured_match" cfg).accuracy_score = 1) := by
  have hfall : evaluate_structured_match (parse response) expected_output cfg =
      evaluate_exact_match (parse response) expected_output := by
    cases hp : parse response <;> cases hx : expected_output <;> try rfl
    rw [hp, hx] at h
    simp [Json.isObj] at h
  refine ⟨hfall, ?_⟩
  have hne : ("structured_match" : String) ≠ "exact_match" := by decide
  simp only [evaluate_response, if_neg hne, if_pos rfl]
  rw [hfall]
  rcases exact_match_shape (parse response) expected_output with ⟨c, hok⟩ | ⟨e, herr⟩
  · rw [hok]
    cases c
    · left; rfl
    · right; rfl
  · rw [herr]
    left
    rfl

theorem claim_structured_fallback_witness :
    ((parseRaw "yes").isObj = false ∨ (Json.obj [("value", .str "yes")]).isObj = false) ∧
    (evaluate_structured_match (parseRaw "yes") (.obj [("value", .str "yes")]) cfgDefault =
      evaluate_exact_match (parseRaw "yes") (.obj [("value", .str "yes")]) ∧
     ((evaluate_response parseRaw "yes" (.obj [("value", .str "yes")]) "structured_match"
         cfgDefault).accuracy_score = 0 ∨
      (evaluate_response parseRaw "yes" (.obj [("value", .str "yes")]) "structured_match"
         cfgDefault).accuracy_score = 1)) :=
  ⟨Or.inl rfl,
   claim_structured_fallback parseRaw "yes" (.obj [("value", .str "yes")]) cfgDefault
     (Or.inl rfl)⟩

/-- C10: in exact_match evaluation with a non-mapping parsed output, the
expected side of the comparison is the value under the key "value" of the
expected mapping when present and the whole expected mapping otherwise; both
sides are stringified, trimmed and lower-cased, and correctness holds iff the
resulting strings are equal (the score being 1 for correct, 0 otherwise, with
no error). -/
theorem claim_exact_match_canonicalization (parsed : Json) (ef : List (String × Json))
    (h : parsed.isObj = false) :
    ∃ r, evaluate_exact_match parsed (.obj ef) = .ok r ∧
      (r.is_correct = true ↔
        (pyStr parsed).trim.toLower =
          (pyStr (match lookupField ef "value" with
                  | some v => v
                  | none => .obj ef)).trim.toLower) ∧
      r.accuracy_score = (if r.is_correct = true then 1 else 0) ∧
      r.error = none := by
  cases parsed <;> first
    | exact ⟨_, rfl, beq_iff_eq, rfl, rfl⟩
    | (exfalso; simp [Json.isObj] at h)

theorem claim_exact_match_canonicalization_witness :
    (Json.str "YES").isObj = false ∧
    (∃ r, evaluate_exact_match (.str "YES") (.obj [("value", .str "yes")]) = .ok r ∧
      (r.is_correct = true ↔
        (pyStr (.str "YES")).trim.toLower =
          (pyStr (match lookupField [("value", Json.str "yes")] "value" with
                  | some v => v
                  | none => .obj [("value", Json.str "yes")])).trim.toLower) ∧
      r.accuracy_score = (if r.is_correct = true then 1 else 0) ∧
      r.error = none) :=
  ⟨rfl, claim_exact_match_canonicalization (.str "YES") [("value", .str "yes")] rfl⟩

/-- C1 counterexample: a one-model batch whose only task failed (provider
error) reaches progress = total, and finalization marks it "completed" with
successful_evaluations = 0 and no error message — refuting
"completed iff successful_evaluations > 0" and
"a batch in which every task failed is never marked completed". -/
theorem counterexample_finalize_all_failed :
    execAllFailed.successful_evaluations = 0 ∧
    execAllFailed.failed_evaluations = 1 ∧
    execAllFailed.progress = execAllFailed.total_evaluations ∧
    execAllFailed.status = "completed" ∧
    execAllFailed.error_message = none := by
  decide

/-- C1 (amended): finalization marks the batch completed iff all tasks are
terminal (progress ≥ total) or at least one evaluation succeeded; it is
failed — with message "All evaluations failed" — iff the batch deadline fired
with progress < total and no evaluation succeeded. -/
theorem claim_finalize_status_amended (ex : ExecutionRec) :
    ((finalize_execution ex).status = "completed" ↔
      (ex.total_evaluations ≤ ex.progress ∨ 0 < ex.successful_evaluations)) ∧
    (((finalize_execution ex).status = "failed" ∧
      (finalize_execution ex).error_message = some "All evaluations failed") ↔
      (ex.progress < ex.total_evaluations ∧ ex.successful_evaluations = 0)) := by
  unfold finalize_execution
  split
  · next hge =>
    constructor
    · exact ⟨fun _ => Or.inl hge, fun _ => rfl⟩
    · constructor
      · rintro ⟨hst, _⟩
        simp at hst
      · rintro ⟨hlt, _⟩
        omega
  · next hnge =>
    split
    · next hzero =>
      constructor
      · constructor
        · intro hst
          simp at hst
        · rintro (hle | hpos)
          · omega
          · omega
      · exact ⟨fun _ => ⟨by omega, hzero⟩, fun _ => ⟨rfl, rfl⟩⟩
    · next hnz =>
      constructor
      · exact ⟨fun _ => Or.inr (Nat.pos_of_ne_zero hnz), fun _ => rfl⟩
      · constructor
        · rintro ⟨hst, _⟩
          simp at hst
        · rintro ⟨_, hz⟩
          exact absurd hz hnz

/-! ### Residency-cache lemmas -/

theorem unload_model_active (s : MMState) (m : String) :
    ((unload_model s m).1).active = s.active := by
  unfold unload_model
  split
  · rfl
  · split <;> rfl

theorem getActive_unload (s : MMState) (m m2 : String) :
    getActive (unload_model s m2).1 m = getActive s m := by
  unfold getActive
  rw [unload_model_active]

theorem mem_loaded_unload {s : MMState} {m : String} (m2 : String)
    (hm : m ∈ s.loaded) (hbusy : 0 < getActive s m) :
    m ∈ (unload_model s m2).1.loaded := by
  unfold unload_model
  split
  · exact hm
  · split
    · exact hm
    · next h1 h2 =>
      have hne : m ≠ m2 := by
        intro heq
        subst heq
        omega
      exact (List.mem_erase_of_ne hne).mpr hm

theorem mem_loaded_moveToEnd {s : MMState} {m : String} (m2 : String)
    (hm : m ∈ s.loaded) : m ∈ (moveToEnd s m2).loaded := by
  unfold moveToEnd
  by_cases heq : m = m2
  · subst heq
    exact List.mem_append_right _ (List.mem_cons_self _ _)
  · exact List.mem_append_left _ ((List.mem_erase_of_ne heq).mpr hm)

theorem evictLoop_active : ∀ (n : Nat) (s : MMState), (evictLoop s n).active = s.active := by
  intro n
  induction n with
  | zero => intro s; rfl
  | succ n ih =>
    intro s
    unfold evictLoop
    split
    · rfl
    · split
      · rw [ih, unload_model_active]
      · rfl

theorem evictLoop_mem_busy : ∀ (n : Nat) (s : MMState) (m : String),
    m ∈ s.loaded → 0 < getActive s m → m ∈ (evictLoop s n).loaded := by
  intro n
  induction n with
  | zero => intro s m hm _; exact hm
  | succ n ih =>
    intro s m hm hbusy
    unfold evictLoop
    split
    · exact hm
    · split
      · next m0 _ =>
        refine ih _ m (mem_loaded_unload m0 hm hbusy) ?_
        rw [getActive_unload]
        exact hbusy
      · exact hm

theorem unload_model_length (s : MMState) (m : String) :
    (unload_model s m).1.loaded.length ≤ s.loaded.length := by
  unfold unload_model
  split
  · exact le_rfl
  · split
    · exact le_rfl
    · exact (List.erase_sublist m s.loaded).length_le

theorem evictLoop_length : ∀ (n : Nat) (s : MMState),
    (evictLoop s n).loaded.length ≤ s.loaded.length := by
  intro n
  induction n with
  | zero => intro s; exact le_rfl
  | succ n ih =>
    intro s
    unfold evictLoop
    split
    · exact le_rfl
    · split
      · exact le_trans (ih _) (unload_model_length _ _)
      · exact le_rfl

theorem evictLoop_shrinks (n : Nat) (s : MMState)
    (hidle : ∃ x ∈ s.loaded, getActive s x = 0) :
    (evictLoop s (n + 1)).loaded.length ≤ s.loaded.length - 1 := by
  obtain ⟨x, hx, hx0⟩ := hidle
  have hne : s.loaded.isEmpty = false := by
    cases hl : s.loaded with
    | nil => rw [hl] at hx; simp at hx
    | cons y ys => rfl
  have hfind : (s.loaded.find? (fun m => getActive s m == 0)).isSome := by
    rw [List.find?_isSome]
    exact ⟨x, hx, by simp [hx0]⟩
  obtain ⟨m0, hm0⟩ := Option.isSome_iff_exists.mp hfind
  have hm0mem : m0 ∈ s.loaded := List.mem_of_find?_eq_some hm0
  have hm0idle : getActive s m0 = 0 := by
    have := List.find?_some hm0
    simpa using this
  unfold evictLoop
  rw [hne]
  simp only [Bool.false_eq_true, if_false, hm0]
  have hunload : (unload_model s m0).1.loaded = s.loaded.erase m0 := by
    unfold unload_model
    rw [if_neg (by simp [hm0mem]), if_neg (by omega)]
  calc (evictLoop (unload_model s m0).1 n).loaded.length
      ≤ (unload_model s m0).1.loaded.length := evictLoop_length n _
    _ = s.loaded.length - 1 := by
        rw [hunload, List.length_erase_of_mem hm0mem]

theorem ensure_model_capacity_active (C : Nat) (s : MMState) :
    (ensure_model_capacity C s).active = s.active := by
  unfold ensure_model_capacity
  split
  · rfl
  · rw [evictLoop_active]

theorem ensure_model_capacity_mem_busy (C : Nat) {s : MMState} {m : String}
    (hm : m ∈ s.loaded) (hbusy : 0 < getActive s m) :
    m ∈ (ensure_model_capacity C s).loaded := by
  unfold ensure_model_capacity
  split
  · exact hm
  · exact evictLoop_mem_busy _ _ _ hm hbusy

/-- C2 counterexample: with capacity C = 1, after load("a") and
startInference("a") the single resident model is busy; load("b") then
succeeds (no CapacityExceeded failure), inserts "b", and the resident count
reaches 2 > C = 1. -/
theorem counterexample_residency_capacity :
    mmBusyOne.loaded = ["a"] ∧ getActive mmBusyOne "a" = 1 ∧
    mmOverCap.2 = true ∧ mmOverCap.1.loaded = ["a", "b"] ∧
    1 < mmOverCap.1.loaded.length := by
  decide

/-- C2 (amended): an entry with a positive active-request counter is never
evicted by any operation, and a load that finds spare capacity or at least
one idle resident model keeps the resident count within
max C (previous count); but when the cache is at or above capacity and every
resident model is busy, load does not fail — it inserts the new model and the
resident count exceeds C. -/
theorem claim_residency_amended :
    (∀ (C : Nat) (configured : String → Bool) (maxConc : String → Nat) (s : MMState)
        (op : MMOp) (m : String), m ∈ s.loaded → 0 < getActive s m →
        m ∈ (mmStep C configured maxConc s op).loaded) ∧
    (∀ (C : Nat) (configured : String → Bool) (outcome : LoadOutcome) (s : MMState)
        (m : String), (s.loaded.length < C ∨ ∃ x ∈ s.loaded, getActive s x = 0) →
        (load_model C configured outcome s m).1.loaded.length ≤
          max C s.loaded.length) := by
  constructor
  · intro C configured maxConc s op m hm hbusy
    cases op with
    | load m2 outcome =>
      simp only [mmStep]
      unfold load_model
      split
      · exact hm
      · split
        · exact mem_loaded_moveToEnd m2 hm
        · have hmem1 : m ∈ (ensure_model_capacity C s).loaded :=
            ensure_model_capacity_mem_busy C hm hbusy
          cases outcome with
          | backendFailure => exact hmem1
          | success => exact List.mem_append_left _ hmem1
    | unload m2 =>
      exact mem_loaded_unload m2 hm hbusy
    | startInf m2 =>
      simp only [mmStep]
      unfold start_inference
      split
      · exact hm
      · split
        · exact hm
        · exact mem_loaded_moveToEnd m2 hm
    | endInf m2 =>
      simp only [mmStep]
      unfold end_inference
      split
      · exact hm
      · exact hm
  · intro C configured outcome s m h
    unfold load_model
    split
    · exact le_max_right _ _
    · split
      · next hmem =>
        have hpos : 0 < s.loaded.length := List.length_pos_of_mem hmem
        simp only [moveToEnd, List.length_append, List.length_erase_of_mem hmem,
          List.length_cons, List.length_nil]
        omega
      · by_cases hlt : s.loaded.length < C
        · have hens : ensure_model_capacity C s = s := by
            unfold ensure_model_capacity
            rw [if_pos hlt]
          cases outcome with
          | backendFailure =>
            rw [hens]
            exact le_max_right _ _
          | success =>
            simp only [hens, List.length_append, List.length_cons, List.length_nil]
            have : s.loaded.length + 1 ≤ C := hlt
            omega
        · rcases h with h | hidle
          · exact absurd h hlt
          · have hpos : 0 < s.loaded.length := by
              obtain ⟨x, hx, _⟩ := hidle
              exact List.length_pos_of_mem hx
            have hens : ensure_model_capacity C s = evictLoop s (s.loaded.length - C + 1) := by
              unfold ensure_model_capacity
              rw [if_neg hlt]
            have hshrink := evictLoop_shrinks (s.loaded.length - C) s hidle
            cases outcome with
            | backendFailure =>
              have hlen := evictLoop_length (s.loaded.length - C + 1) s
              dsimp only
              rw [hens]
              omega
            | success =>
              simp only [hens, List.length_append, List.length_cons, List.length_nil]
              omega

theorem claim_residency_amended_witness :
    ("a" ∈ mmBusyOne.loaded ∧ 0 < getActive mmBusyOne "a" ∧
      "a" ∈ (mmStep 1 mmCfgAll mmConcOne mmBusyOne (.load "b" .success)).loaded) ∧
    (mmBusyOne.loaded.length < 2 ∧
      (load_model 2 mmCfgAll .success mmBusyOne "b").1.loaded.length ≤
        max 2 mmBusyOne.loaded.length) :=
  ⟨⟨by decide, by decide,
    claim_residency_amended.1 1 mmCfgAll mmConcOne mmBusyOne (.load "b" .success) "a"
      (by decide) (by decide)⟩,
   ⟨by decide,
    claim_residency_amended.2 2 mmCfgAll .success mmBusyOne "b" (Or.inl (by decide))⟩⟩
